import Mathlib

/-!
Shallow embedding of the Logos Search "Search Library" command pipeline:
catalog location, schema inference, extraction, caching and filtering.
Pure functions are translated directly; filesystem and SQLite effects are
modelled by explicit state (a `Db` value for the opened database, an `Fs`
record for the directory scan, a `CacheFile` for the cache file's state).
JS strings are Lean `String`s; JS numbers that hold modification times or
compare results are modelled as `Int`; SQL `NULL` is `Option.none`.
-/

/-- A normalized resource record (`ResourceRow` in the source). The source
field `abbrev` is a Lean keyword, so it is named `abbr` here. -/
structure ResourceRow where
  id : String
  title : String
  author : Option String
  abbr : Option String
deriving DecidableEq, Repr

/-- Source `CatalogInfo`: a resolved catalog database location (path + mtime). -/
structure CatalogInfo where
  path : String
  mtimeMs : Int
deriving DecidableEq, Repr

/-- Source `RESOURCE_TABLE_CANDIDATES`: a fixed priority list of known table names. -/
def RESOURCE_TABLE_CANDIDATES : List String :=
  ["Resource", "Resources", "LibraryCatalog", "Catalog", "LibraryResources"]

/-- Source `ID_COLUMN_CANDIDATES`. -/
def ID_COLUMN_CANDIDATES : List String :=
  ["resourceid", "resource_id", "res_id", "id"]

/-- Source `TITLE_COLUMN_CANDIDATES`. -/
def TITLE_COLUMN_CANDIDATES : List String :=
  ["title", "name", "displayname", "resourcetitle"]

/-- Source `AUTHOR_COLUMN_CANDIDATES`. -/
def AUTHOR_COLUMN_CANDIDATES : List String :=
  ["author", "authors", "creator", "authorname"]

/-- Source `ABBREV_COLUMN_CANDIDATES`. -/
def ABBREV_COLUMN_CANDIDATES : List String :=
  ["abbreviation", "abbrev", "shorttitle", "resourceabbreviation"]

/-- One SQLite table: its name, its column names in order, and its rows
(cells aligned with `columns`; `none` is SQL NULL, non-NULL values are the
text they coerce to via `String(value)`). -/
structure Table where
  name : String
  columns : List String
  rows : List (List (Option String))

/-- An opened catalog database: the list of its tables, in
`sqlite_master` enumeration order. -/
abbrev Db := List Table

/-- JS `toLowerCase` (ASCII range, which covers every candidate name); defined
over the character list so concrete instances evaluate in the kernel. -/
def lowerStr (s : String) : String := ⟨s.data.map Char.toLower⟩

/-- JS `trim`: strip leading and trailing whitespace. -/
def trimStr (s : String) : String :=
  ⟨((s.data.dropWhile Char.isWhitespace).reverse.dropWhile Char.isWhitespace).reverse⟩

/-- JS `startsWith` for the single-character tests this code performs. -/
def startsWithChar (s : String) (c : Char) : Bool :=
  match s.data with
  | [] => false
  | c0 :: _ => c0 == c

/-- JS `slice(n)`: drop the first `n` characters. -/
def dropStr (s : String) (n : Nat) : String := ⟨s.data.drop n⟩

/-- Source `findColumn`: first candidate (in priority order) that matches a column
name case-insensitively; returns the column's original spelling. -/
def findColumn (columns : List String) : List String → Option String
  | [] => none
  | c :: rest =>
    match columns.find? (fun col => lowerStr col == c) with
    | some col => some col
    | none => findColumn columns rest

/-- The inferred schema returned by `findResourceTable`. -/
structure InferredSchema where
  tableName : String
  idColumn : String
  titleColumn : String
  authorColumn : Option String
  abbrevColumn : Option String
deriving DecidableEq, Repr

/-- Table lookup; `PRAGMA table_info` on an absent table yields no rows,
modelled by `none`. -/
def lookupTable (db : Db) (name : String) : Option Table :=
  db.find? (fun t => t.name == name)

/-- The body of one iteration of `findResourceTable`'s loop: read the
candidate table's columns, resolve mandatory id/title and optional
author/abbrev columns. -/
def findTableSchema (db : Db) (tableName : String) : Option InferredSchema :=
  match lookupTable db tableName with
  | none => none
  | some t =>
    match findColumn t.columns ID_COLUMN_CANDIDATES,
          findColumn t.columns TITLE_COLUMN_CANDIDATES with
    | some idCol, some titleCol =>
      some { tableName := tableName, idColumn := idCol, titleColumn := titleCol,
             authorColumn := findColumn t.columns AUTHOR_COLUMN_CANDIDATES,
             abbrevColumn := findColumn t.columns ABBREV_COLUMN_CANDIDATES }
    | _, _ => none

/-- The JS `Set` of table names read from `sqlite_master`, in insertion
order with first occurrence kept. -/
def tableNamesOf (db : Db) : List String :=
  db.foldl (fun acc t => if acc.contains t.name then acc else acc ++ [t.name]) []

/-- Loop of `findResourceTable` over `orderedTables`; a name is processed
when it is present in the database or is a known candidate (the source
`continue`s on the negation of that disjunction). -/
def tryTables (db : Db) (tableNames : List String) : List String → Option InferredSchema
  | [] => none
  | n :: rest =>
    if tableNames.contains n || RESOURCE_TABLE_CANDIDATES.contains n then
      match findTableSchema db n with
      | some s => some s
      | none => tryTables db tableNames rest
    else tryTables db tableNames rest

/-- Source `findResourceTable`: known candidates first, then every table actually
present; `none` models the thrown "Could not find a resource table" error. -/
def findResourceTable (db : Db) : Option InferredSchema :=
  let tableNames := tableNamesOf db
  tryTables db tableNames (RESOURCE_TABLE_CANDIDATES ++ tableNames)

/-- Value of column `col` in a row, given the table's column layout. -/
def cellValue (columns : List String) (row : List (Option String)) (col : String) :
    Option String :=
  match columns.findIdx? (fun c => c == col) with
  | some i => row.getD i none
  | none => none

/-- The `SELECT` list built by `queryResources`: source column paired with
its alias. -/
def selectedCols (s : InferredSchema) : List (String × String) :=
  [(s.idColumn, "id"), (s.titleColumn, "title")]
    ++ (match s.authorColumn with | some c => [(c, "author")] | none => [])
    ++ (match s.abbrevColumn with | some c => [(c, "abbrev")] | none => [])

/-- Execution of the projection query: rows where id and title are both
non-NULL, projected to the selected columns; returns the result's column
(alias) names and value rows, as `database.exec` does. -/
def execQuery (t : Table) (s : InferredSchema) :
    List String × List (List (Option String)) :=
  let sel := selectedCols s
  let kept := t.rows.filter (fun row =>
    (cellValue t.columns row s.idColumn).isSome
      && (cellValue t.columns row s.titleColumn).isSome)
  (sel.map Prod.snd, kept.map (fun row => sel.map (fun p => cellValue t.columns row p.1)))

/-- The partially-built record of `queryResources`' row loop (`record` in
the source: each field starts absent). -/
structure DraftRecord where
  id : Option String := none
  title : Option String := none
  author : Option String := none
  abbr : Option String := none

/-- Assignment `record[key] = value` for the four logical field names. -/
def setField (r : DraftRecord) (key : String) (v : String) : DraftRecord :=
  if key == "id" then { r with id := some v }
  else if key == "title" then { r with title := some v }
  else if key == "author" then { r with author := some v }
  else if key == "abbrev" then { r with abbr := some v }
  else r

/-- The `columnNames.forEach` body: copy each non-NULL cell into the draft
record under its alias. -/
def buildRecord (columnNames : List String) (row : List (Option String)) : DraftRecord :=
  (columnNames.zip row).foldl
    (fun r kv => match kv.2 with | none => r | some v => setField r kv.1 v) {}

/-- JS truthiness of an optional string (`!record.id`): absent and empty
string are both falsy. -/
def strTruthy : Option String → Bool
  | none => false
  | some s => s != ""

/-- Finalize a draft that passed the truthiness check (`?? null` keeps the
optional fields as-is). -/
def finishRecord (r : DraftRecord) : ResourceRow :=
  { id := r.id.getD "", title := r.title.getD "", author := r.author, abbr := r.abbr }

/-- The dedup loop of `queryResources`: drop rows lacking a truthy id or
title, drop rows whose id was already seen, keep the rest in order. -/
def extractLoop (columnNames : List String) :
    List (List (Option String)) → List String → List ResourceRow
  | [], _ => []
  | row :: rest, seen =>
    let r := buildRecord columnNames row
    if strTruthy r.id && strTruthy r.title then
      if seen.contains (r.id.getD "") then extractLoop columnNames rest seen
      else finishRecord r :: extractLoop columnNames rest (r.id.getD "" :: seen)
    else extractLoop columnNames rest seen

/-- JS `Array.prototype.sort(c)` is a stable sort with respect to the total
preorder `c a b ≤ 0`; modelled by Mathlib's stable insertion sort. -/
def jsSortBy (c : α → α → Int) (l : List α) : List α :=
  List.insertionSort (fun a b => c a b ≤ 0) l

/-- Source `queryResources`: run the projection query, build/filter/dedup records,
then sort by title with the locale comparator `cmp` (`localeCompare`,
passed as a parameter since it is environment-supplied). -/
def queryResources (cmp : String → String → Int) (db : Db) (s : InferredSchema) :
    List ResourceRow :=
  match lookupTable db s.tableName with
  | none => []
  | some t =>
    let q := execQuery t s
    jsSortBy (fun a b => cmp a.title b.title) (extractLoop q.1 q.2 [])

/-- Source `readCatalogDatabase`: infer the schema, then extract; `none` models
the thrown schema-inference failure. -/
def readCatalogDatabase (cmp : String → String → Int) (db : Db) :
    Option (List ResourceRow) :=
  (findResourceTable db).map (fun s => queryResources cmp db s)

/-- A JSON value, for the cache file's parsed contents. -/
inductive Json where
  | null
  | bool (b : Bool)
  | num (n : Int)
  | str (s : String)
  | arr (elems : List Json)
  | obj (fields : List (String × Json))
deriving BEq, Repr

/-- Property access `j.k` on a parsed JSON value: `none` when absent or the
value is not an object. -/
def Json.getField : Json → String → Option Json
  | .obj fields, k => (fields.find? (fun p => p.1 == k)).map Prod.snd
  | _, _ => none

/-- Observable state of the cache file: absent (ENOENT), unreadable (read
throws another error), unparsable text, or a parsed JSON value. -/
inductive CacheFile where
  | missing
  | unreadable
  | badJson
  | json (j : Json)

/-- Source `CachePayload` as `readCache` actually uses it: the `resources` array's
elements stay raw JSON values — never validated against the record shape. -/
structure CachePayload where
  dbPath : String
  mtimeMs : Int
  resources : List Json

/-- Source `readCache`: all read/parse failures yield `none`; a parsed value is
accepted exactly when `resources` is an array, `dbPath` a string and
`mtimeMs` a number. -/
def readCache : CacheFile → Option CachePayload
  | .missing => none
  | .unreadable => none
  | .badJson => none
  | .json j =>
    match j.getField "resources", j.getField "dbPath", j.getField "mtimeMs" with
    | some (.arr rs), some (.str d), some (.num m) =>
      some { dbPath := d, mtimeMs := m, resources := rs }
    | _, _, _ => none

/-- The shape test inside `readCache`, as a standalone predicate. -/
def validShape (j : Json) : Bool :=
  match j.getField "resources", j.getField "dbPath", j.getField "mtimeMs" with
  | some (.arr _), some (.str _), some (.num _) => true
  | _, _, _ => false

/-- JSON serialization of an optional string field (`null` when absent). -/
def encodeOptStr : Option String → Json
  | some s => .str s
  | none => .null

/-- JSON serialization of one record, as `JSON.stringify` lays it out. -/
def encodeRow (r : ResourceRow) : Json :=
  .obj [("id", .str r.id), ("title", .str r.title),
        ("author", encodeOptStr r.author), ("abbrev", encodeOptStr r.abbr)]

/-- JSON serialization of the cache payload written by `writeCache`. -/
def encodePayload (dbPath : String) (mtimeMs : Int) (rows : List ResourceRow) : Json :=
  .obj [("dbPath", .str dbPath), ("mtimeMs", .num mtimeMs),
        ("resources", .arr (rows.map encodeRow))]

/-- Source `writeCache`: on success the cache file holds the new payload; a failed
write is logged and swallowed, leaving the previous state. `writeOk` is the
environment's disposition of the write attempt. -/
def writeCache (writeOk : Bool) (old : CacheFile) (payload : Json) : CacheFile :=
  if writeOk then .json payload else old

/-- The environment `loadCatalog` runs in, after `resolveCatalog` has
succeeded: the resolved location, the cache file's state, the opened
database's content, and whether a cache write would succeed. -/
structure Env where
  catalog : CatalogInfo
  cacheFile : CacheFile
  db : Db
  writeOk : Bool

/-- What one `loadCatalog` call produces: the returned `resources` and
`dbPath`, plus the cache file's state afterwards. Resources are JSON
values because a cache hit returns the raw cached array unvalidated, while
the fresh path returns records (serialized here by `encodeRow`). -/
structure LoadOut where
  resources : List Json
  dbPath : String
  cacheAfter : CacheFile

/-- Source `loadCatalog` after catalog resolution: use the cache when not forced
and path+mtime both match; otherwise extract fresh and write the cache.
`none` models the thrown schema-inference failure. -/
def loadCatalog (cmp : String → String → Int) (env : Env) (forceRefresh : Bool) :
    Option LoadOut :=
  let hit : Option CachePayload :=
    if forceRefresh then none
    else match readCache env.cacheFile with
      | some c =>
        if c.dbPath == env.catalog.path && c.mtimeMs == env.catalog.mtimeMs then some c
        else none
      | none => none
  match hit with
  | some c => some { resources := c.resources, dbPath := env.catalog.path,
                     cacheAfter := env.cacheFile }
  | none =>
    match readCatalogDatabase cmp env.db with
    | none => none
    | some rows =>
      some { resources := rows.map encodeRow, dbPath := env.catalog.path,
             cacheAfter := writeCache env.writeOk env.cacheFile
               (encodePayload env.catalog.path env.catalog.mtimeMs rows) }

/-- Node `path.join` for the joins this code performs. -/
def joinPath (a b : String) : String :=
  if startsWithChar b '/' then a ++ b else a ++ "/" ++ b

/-- Source `expandTilde`. -/
def expandTilde (home input : String) : String :=
  if startsWithChar input '~' then joinPath home (dropStr input 1) else input

/-- The filesystem as `resolveCatalog` observes it: the home directory,
which paths exist, each path's mtime, and the base directory's entries
(name, isDirectory) in enumeration order. -/
structure Fs where
  home : String
  pathExists : String → Bool
  mtimeOf : String → Int
  baseEntries : List (String × Bool)

/-- The message shared by both auto-discovery failures. -/
def notFoundMessage : String :=
  "catalog.db not found. Launch Logos once, then try again. You may need to grant Raycast Full Disk Access."

/-- The fixed base installation directory. -/
def baseDirOf (fs : Fs) : String :=
  joinPath fs.home "Library/Application Support/Logos4/Data"

/-- The candidate-collection loop: for each directory entry, probe
`<base>/<entry>/LibraryCatalog/catalog.db` and keep existing ones with
their mtimes, in enumeration order. -/
def candidatesOf (fs : Fs) : List CatalogInfo :=
  (fs.baseEntries.filter (fun e => e.2)).filterMap (fun e =>
    let candidate := joinPath (joinPath (baseDirOf fs) e.1) "LibraryCatalog/catalog.db"
    if fs.pathExists candidate then
      some { path := candidate, mtimeMs := fs.mtimeOf candidate }
    else none)

/-- The comparator `(a, b) => b.mtimeMs - a.mtimeMs` (descending mtime). -/
def candCmp (a b : CatalogInfo) : Int := b.mtimeMs - a.mtimeMs

/-- Source `resolveCatalog`: explicit override first (fail fast when absent),
otherwise scan the base directory; errors carry the thrown message. -/
def resolveCatalog (catalogPath : Option String) (fs : Fs) : Except String CatalogInfo :=
  let override := trimStr (catalogPath.getD "")
  if override != "" then
    let fullPath := expandTilde fs.home override
    if fs.pathExists fullPath then
      .ok { path := fullPath, mtimeMs := fs.mtimeOf fullPath }
    else
      .error ("catalog.db not found at " ++ fullPath)
  else if !fs.pathExists (baseDirOf fs) then
    .error notFoundMessage
  else
    let candidates := candidatesOf fs
    if candidates.isEmpty then
      .error notFoundMessage
    else
      match jsSortBy candCmp candidates with
      | [] => .error notFoundMessage
      | m :: _ => .ok m

/-- One entry of a Fuse.js result list (only `item` is consumed). -/
structure FuseEntry where
  item : ResourceRow

/-- The `fuse` memo: no index is built over an empty record set. -/
def fuseOf (resources : List ResourceRow) (search : String → List FuseEntry) :
    Option (String → List FuseEntry) :=
  if resources.length == 0 then none else some search

/-- Source `filteredResources`: empty record set shows nothing; an empty (trimmed)
query shows the first 50 records as loaded; otherwise the fuzzy index's
ranked entries, capped at 50. `search` stands for the external Fuse.js
index built over `resources`. -/
def filteredResources (resources : List ResourceRow)
    (search : String → List FuseEntry) (searchText : String) : List ResourceRow :=
  if resources.length == 0 then []
  else
    let query := trimStr searchText
    if query == "" then resources.take 50
    else
      match fuseOf resources search with
      | none => []
      | some f => ((f query).map (fun e => e.item)).take 50

/-! ### Helper lemmas -/

theorem findTableSchema_tableName {db : Db} {n : String} {s : InferredSchema}
    (h : findTableSchema db n = some s) : s.tableName = n := by
  unfold findTableSchema at h
  cases hl : lookupTable db n with
  | none => rw [hl] at h; cases h
  | some t =>
    rw [hl] at h
    cases hid : findColumn t.columns ID_COLUMN_CANDIDATES <;>
      cases htitle : findColumn t.columns TITLE_COLUMN_CANDIDATES <;>
        simp [hid, htitle] at h
    rw [← h]

/-! ### C1 -/

/-- Database of the C1 scenario: tables `Resources` and `Catalog`, each
with a resolvable id column and title column. -/
def c1Db : Db :=
  [ { name := "Resources", columns := ["id", "title"], rows := [] },
    { name := "Catalog", columns := ["id", "title"], rows := [] } ]

/-- C1, counterexample: in a database where both `Resources` and `Catalog`
qualify, schema inference returns `Resources`, not `Catalog` — in
`RESOURCE_TABLE_CANDIDATES` the name `Resources` precedes `Catalog`. -/
theorem c1_claim_counterexample :
    (findTableSchema c1Db "Resources").isSome = true ∧
    (findTableSchema c1Db "Catalog").isSome = true ∧
    (findResourceTable c1Db).map InferredSchema.tableName = some "Resources" ∧
    ¬ (findResourceTable c1Db).map InferredSchema.tableName = some "Catalog" := by
  refine ⟨rfl, rfl, rfl, ?_⟩
  decide

/-- C1 (amended): for every database in which both `Resources` and
`Catalog` qualify and the only earlier priority-list name, `Resource`,
does not, schema inference returns the `Resources` table, because
`Resources` precedes `Catalog` in the known-table priority list. -/
theorem c1_inference_picks_resources (db : Db)
    (hres : (findTableSchema db "Resources").isSome = true)
    (hcat : (findTableSchema db "Catalog").isSome = true)
    (hfirst : findTableSchema db "Resource" = none) :
    findResourceTable db = findTableSchema db "Resources" ∧
    (findResourceTable db).map InferredSchema.tableName = some "Resources" := by
  obtain ⟨s, hs⟩ := Option.isSome_iff_exists.mp hres
  have hmain : findResourceTable db = findTableSchema db "Resources" := by
    show tryTables db (tableNamesOf db) (RESOURCE_TABLE_CANDIDATES ++ tableNamesOf db)
      = findTableSchema db "Resources"
    have hsplit : RESOURCE_TABLE_CANDIDATES ++ tableNamesOf db
        = "Resource" :: "Resources" :: "LibraryCatalog" :: "Catalog" :: "LibraryResources"
            :: tableNamesOf db := rfl
    rw [hsplit]
    have h1 : RESOURCE_TABLE_CANDIDATES.contains "Resource" = true := rfl
    have h2 : RESOURCE_TABLE_CANDIDATES.contains "Resources" = true := rfl
    simp only [tryTables, h1, h2, Bool.or_true, eq_self_iff_true, if_true, hfirst, hs]
  refine ⟨hmain, ?_⟩
  rw [hmain, hs, Option.map_some']
  rw [findTableSchema_tableName hs]

/-- C1 (amended), witness at the concrete two-table database. -/
theorem c1_inference_picks_resources_witness :
    findResourceTable c1Db = findTableSchema c1Db "Resources" ∧
    (findResourceTable c1Db).map InferredSchema.tableName = some "Resources" :=
  c1_inference_picks_resources c1Db rfl rfl rfl

/-! ### C2 / C5: extraction invariants -/

/-- The candidate records of one extraction, in row order: every row whose
built record has a truthy id and title, before deduplication. -/
def extractCandidates (cn : List String) : List (List (Option String)) → List ResourceRow
  | [] => []
  | row :: rest =>
    let r := buildRecord cn row
    if strTruthy r.id && strTruthy r.title then
      finishRecord r :: extractCandidates cn rest
    else extractCandidates cn rest

theorem strTruthy_getD {o : Option String} (h : strTruthy o = true) : o.getD "" ≠ "" := by
  cases o with
  | none => exact absurd h (by simp [strTruthy])
  | some s =>
    simp only [strTruthy, bne_iff_ne, ne_eq] at h
    simpa using h

theorem extractLoop_props (cn : List String) (rows : List (List (Option String))) :
    ∀ (seen : List String) (x : ResourceRow), x ∈ extractLoop cn rows seen →
      x.id ≠ "" ∧ x.title ≠ "" ∧ seen.contains x.id = false := by
  induction rows with
  | nil => intro seen x hx; simp [extractLoop] at hx
  | cons row rest ih =>
    intro seen x hx
    simp only [extractLoop] at hx
    by_cases htruthy :
        (strTruthy (buildRecord cn row).id && strTruthy (buildRecord cn row).title) = true
    · rw [if_pos htruthy] at hx
      obtain ⟨hid, htitle⟩ := Bool.and_eq_true_iff.mp htruthy
      by_cases hseen : seen.contains ((buildRecord cn row).id.getD "") = true
      · rw [if_pos hseen] at hx
        exact ih seen x hx
      · rw [if_neg hseen] at hx
        rcases List.mem_cons.mp hx with hx1 | hx2
        · subst hx1
          refine ⟨strTruthy_getD hid, strTruthy_getD htitle, ?_⟩
          simpa using hseen
        · have h3 := ih _ x hx2
          refine ⟨h3.1, h3.2.1, ?_⟩
          have h4 := h3.2.2
          rw [List.contains_cons] at h4
          exact (Bool.or_eq_false_iff.mp h4).2
    · rw [if_neg htruthy] at hx
      exact ih seen x hx

theorem extractLoop_nodup (cn : List String) (rows : List (List (Option String))) :
    ∀ seen : List String, ((extractLoop cn rows seen).map ResourceRow.id).Nodup := by
  induction rows with
  | nil => intro seen; simp [extractLoop]
  | cons row rest ih =>
    intro seen
    simp only [extractLoop]
    by_cases htruthy :
        (strTruthy (buildRecord cn row).id && strTruthy (buildRecord cn row).title) = true
    · rw [if_pos htruthy]
      by_cases hseen : seen.contains ((buildRecord cn row).id.getD "") = true
      · rw [if_pos hseen]; exact ih seen
      · rw [if_neg hseen]
        simp only [List.map_cons]
        refine List.nodup_cons.mpr ⟨?_, ih _⟩
        intro hmem
        obtain ⟨y, hy, hyid⟩ := List.mem_map.mp hmem
        have h3 := (extractLoop_props cn rest _ y hy).2.2
        rw [List.contains_cons, hyid] at h3
        simp [finishRecord] at h3
    · rw [if_neg htruthy]; exact ih seen

theorem extractLoop_first_seen (cn : List String) (rows : List (List (Option String))) :
    ∀ (seen : List String) (x : ResourceRow), x ∈ extractLoop cn rows seen →
      (extractCandidates cn rows).find? (fun c => c.id == x.id) = some x := by
  induction rows with
  | nil => intro seen x hx; simp [extractLoop] at hx
  | cons row rest ih =>
    intro seen x hx
    simp only [extractLoop] at hx
    simp only [extractCandidates]
    by_cases htruthy :
        (strTruthy (buildRecord cn row).id && strTruthy (buildRecord cn row).title) = true
    · rw [if_pos htruthy] at hx ⊢
      by_cases hseen : seen.contains ((buildRecord cn row).id.getD "") = true
      · rw [if_pos hseen] at hx
        have hprops := extractLoop_props cn rest seen x hx
        have hne : ((finishRecord (buildRecord cn row)).id == x.id) = false := by
          rw [beq_eq_false_iff_ne]
          intro heq
          rw [finishRecord] at heq
          rw [← heq] at hprops
          rw [hprops.2.2] at hseen
          cases hseen
        rw [List.find?_cons_of_neg _ (by simp [hne])]
        exact ih seen x hx
      · rw [if_neg hseen] at hx
        rcases List.mem_cons.mp hx with hx1 | hx2
        · subst hx1
          rw [List.find?_cons_of_pos _ (by simp)]
        · have hprops := extractLoop_props cn rest _ x hx2
          have h4 := hprops.2.2
          rw [List.contains_cons] at h4
          have h5 := (Bool.or_eq_false_iff.mp h4).1
          have hne : ((finishRecord (buildRecord cn row)).id == x.id) = false := by
            rw [beq_eq_false_iff_ne]
            intro heq
            rw [finishRecord] at heq
            rw [← heq, beq_self_eq_true] at h5
            cases h5
          rw [List.find?_cons_of_neg _ (by simp [hne])]
          exact ih _ x hx2
    · rw [if_neg htruthy] at hx ⊢
      exact ih seen x hx

/-- C2: for every database content, comparator and schema, extraction
returns records with pairwise distinct ids and non-empty id and title, and
each returned record is the one built from the first qualifying source row
carrying its id (first-seen wins on duplicates). -/
theorem c2_extraction_invariants (cmp : String → String → Int) (db : Db)
    (s : InferredSchema) :
    ((queryResources cmp db s).map ResourceRow.id).Nodup ∧
    ∀ x ∈ queryResources cmp db s,
      x.id ≠ "" ∧ x.title ≠ "" ∧
      ∀ t, lookupTable db s.tableName = some t →
        (extractCandidates (execQuery t s).1 (execQuery t s).2).find?
          (fun c => c.id == x.id) = some x := by
  cases hl : lookupTable db s.tableName with
  | none => simp [queryResources, hl]
  | some t =>
    have hq : queryResources cmp db s
        = jsSortBy (fun a b => cmp a.title b.title)
            (extractLoop (execQuery t s).1 (execQuery t s).2 []) := by
      simp [queryResources, hl]
    have hperm : List.Perm (queryResources cmp db s)
        (extractLoop (execQuery t s).1 (execQuery t s).2 []) := by
      rw [hq]; exact List.perm_insertionSort _ _
    constructor
    · exact ((hperm.map ResourceRow.id).nodup_iff).mpr
        (extractLoop_nodup (execQuery t s).1 (execQuery t s).2 [])
    · intro x hx
      have hx' := hperm.mem_iff.mp hx
      have hprops := extractLoop_props (execQuery t s).1 (execQuery t s).2 [] x hx'
      refine ⟨hprops.1, hprops.2.1, ?_⟩
      intro t' ht'
      obtain rfl : t = t' := Option.some.inj ht'
      exact extractLoop_first_seen (execQuery t s).1 (execQuery t s).2 [] x hx'

/-- A concrete total-preorder comparator (length difference), standing in
for one locale's `localeCompare` in witnesses. -/
def demoCmp (a b : String) : Int := (a.data.length : Int) - (b.data.length : Int)

/-- Witness table: duplicate ids, an empty title, and a NULL id. -/
def c2Table : Table :=
  { name := "Resources", columns := ["id", "title"],
    rows := [ [some "1", some "B"], [some "1", some "A"], [some "2", some ""],
              [none, some "X"], [some "2", some "C"] ] }

/-- Witness database for C2/C5. -/
def c2Db : Db := [c2Table]

/-- Witness schema for C2/C5 (what inference yields on `c2Db`). -/
def c2Schema : InferredSchema :=
  { tableName := "Resources", idColumn := "id", titleColumn := "title",
    authorColumn := none, abbrevColumn := none }

/-- C2, witness at a concrete database with duplicate and NULL ids. -/
theorem c2_extraction_invariants_witness :
    ((queryResources demoCmp c2Db c2Schema).map ResourceRow.id).Nodup ∧
    (⟨"1", "B", none, none⟩ : ResourceRow).id ≠ "" ∧
    (⟨"1", "B", none, none⟩ : ResourceRow).title ≠ "" ∧
    (extractCandidates (execQuery c2Table c2Schema).1 (execQuery c2Table c2Schema).2).find?
      (fun c => c.id == (⟨"1", "B", none, none⟩ : ResourceRow).id)
      = some ⟨"1", "B", none, none⟩ := by
  have h := c2_extraction_invariants demoCmp c2Db c2Schema
  have hmem : (⟨"1", "B", none, none⟩ : ResourceRow)
      ∈ queryResources demoCmp c2Db c2Schema := by decide
  have h2 := h.2 _ hmem
  exact ⟨h.1, h2.1, h2.2.1, h2.2.2 c2Table rfl⟩

/-- C5: for every comparator that is a total preorder (as a locale's
`localeCompare` is), every database content and every schema, the record
sequence returned by extraction is sorted ascending by title under that
comparator — hence already sorted when cached or indexed. -/
theorem c5_extraction_sorted (cmp : String → String → Int)
    (htrans : ∀ a b c : String, cmp a b ≤ 0 → cmp b c ≤ 0 → cmp a c ≤ 0)
    (htotal : ∀ a b : String, cmp a b ≤ 0 ∨ cmp b a ≤ 0)
    (db : Db) (s : InferredSchema) :
    (queryResources cmp db s).Pairwise (fun a b => cmp a.title b.title ≤ 0) := by
  cases hl : lookupTable db s.tableName with
  | none => simp [queryResources, hl]
  | some t =>
    have hq : queryResources cmp db s
        = List.insertionSort (fun a b : ResourceRow => cmp a.title b.title ≤ 0)
            (extractLoop (execQuery t s).1 (execQuery t s).2 []) := by
      simp [queryResources, hl, jsSortBy]
    rw [hq]
    haveI : IsTotal ResourceRow (fun a b => cmp a.title b.title ≤ 0) :=
      ⟨fun a b => htotal a.title b.title⟩
    haveI : IsTrans ResourceRow (fun a b => cmp a.title b.title ≤ 0) :=
      ⟨fun a b c hab hbc => htrans a.title b.title c.title hab hbc⟩
    exact List.sorted_insertionSort _ _

/-- C5, witness with the concrete comparator at the concrete database. -/
theorem c5_extraction_sorted_witness :
    (queryResources demoCmp c2Db c2Schema).Pairwise
      (fun a b => demoCmp a.title b.title ≤ 0) :=
  c5_extraction_sorted demoCmp
    (fun a b c hab hbc => by simp only [demoCmp] at hab hbc ⊢; omega)
    (fun a b => by simp only [demoCmp]; omega)
    c2Db c2Schema

/-! ### C3 / C4 / C10: cache discipline -/

theorem readCache_validShape {j : Json} {c : CachePayload}
    (h : readCache (.json j) = some c) : validShape j = true := by
  simp only [readCache] at h
  unfold validShape
  split at h
  · rfl
  · cases h

/-- C3: an unforced load with a readable cache whose dbPath and mtimeMs
both equal the resolved location returns the cached sequence, leaves the
cache untouched, and its result does not depend on the database content
(no inference, no extraction); in every other case — forced refresh,
absent cache, differing path or differing mtime — the load extracts fresh
records and writes them to the cache. -/
theorem c3_load_cache_discipline (cmp : String → String → Int) (env : Env) :
    (∀ c, readCache env.cacheFile = some c → c.dbPath = env.catalog.path →
       c.mtimeMs = env.catalog.mtimeMs →
       loadCatalog cmp env false
         = some { resources := c.resources, dbPath := env.catalog.path,
                  cacheAfter := env.cacheFile } ∧
       ∀ db', loadCatalog cmp { env with db := db' } false = loadCatalog cmp env false) ∧
    (∀ forceRefresh : Bool,
      (forceRefresh = true ∨ readCache env.cacheFile = none ∨
        (∃ c, readCache env.cacheFile = some c ∧
          (c.dbPath ≠ env.catalog.path ∨ c.mtimeMs ≠ env.catalog.mtimeMs))) →
      loadCatalog cmp env forceRefresh
        = (readCatalogDatabase cmp env.db).map (fun rows =>
            { resources := rows.map encodeRow, dbPath := env.catalog.path,
              cacheAfter := writeCache env.writeOk env.cacheFile
                (encodePayload env.catalog.path env.catalog.mtimeMs rows) })) := by
  constructor
  · intro c hc hd hm
    have hbeq : (c.dbPath == env.catalog.path && c.mtimeMs == env.catalog.mtimeMs) = true := by
      rw [Bool.and_eq_true]
      exact ⟨beq_iff_eq.mpr hd, beq_iff_eq.mpr hm⟩
    constructor
    · simp [loadCatalog, hc, hbeq]
    · intro db'
      simp [loadCatalog, hc, hbeq]
  · intro forceRefresh hcase
    rcases hcase with hf | hnone | ⟨c, hc, hmis⟩
    · subst hf
      cases hdb : readCatalogDatabase cmp env.db <;> simp [loadCatalog, hdb]
    · cases forceRefresh <;>
        cases hdb : readCatalogDatabase cmp env.db <;> simp [loadCatalog, hnone, hdb]
    · have hbeq : (c.dbPath == env.catalog.path && c.mtimeMs == env.catalog.mtimeMs) = false := by
        rcases hmis with hmp | hmm
        · rw [Bool.and_eq_false_iff]
          exact Or.inl (beq_eq_false_iff_ne.mpr hmp)
        · rw [Bool.and_eq_false_iff]
          exact Or.inr (beq_eq_false_iff_ne.mpr hmm)
      cases forceRefresh <;>
        cases hdb : readCatalogDatabase cmp env.db <;> simp [loadCatalog, hc, hbeq, hdb]

/-- Records used by the cache-discipline witnesses. -/
def demoRows : List ResourceRow := [⟨"1", "B", none, none⟩, ⟨"2", "C", none, none⟩]

/-- A well-formed cached payload matching location `/cat.db` at mtime 7. -/
def demoCacheJson : Json := encodePayload "/cat.db" 7 demoRows

/-- Environment whose cache is fresh for the resolved location. -/
def demoEnvHit : Env :=
  { catalog := { path := "/cat.db", mtimeMs := 7 },
    cacheFile := .json demoCacheJson, db := c2Db, writeOk := true }

/-- C3, witness: a concrete cache hit and a concrete forced refresh. -/
theorem c3_load_cache_discipline_witness :
    loadCatalog demoCmp demoEnvHit false
      = some { resources := demoRows.map encodeRow, dbPath := "/cat.db",
               cacheAfter := demoEnvHit.cacheFile } ∧
    loadCatalog demoCmp demoEnvHit true
      = (readCatalogDatabase demoCmp demoEnvHit.db).map (fun rows =>
          { resources := rows.map encodeRow, dbPath := demoEnvHit.catalog.path,
            cacheAfter := writeCache demoEnvHit.writeOk demoEnvHit.cacheFile
              (encodePayload demoEnvHit.catalog.path demoEnvHit.catalog.mtimeMs rows) }) := by
  have h := c3_load_cache_discipline demoCmp demoEnvHit
  have h1 := h.1 { dbPath := "/cat.db", mtimeMs := 7, resources := demoRows.map encodeRow }
    rfl rfl rfl
  exact ⟨h1.1, h.2 true (Or.inl rfl)⟩

/-- C4: cache faults never become load faults — a missing, unreadable,
unparsable or wrong-shaped cache file reads as absent rather than
failing, and the load's returned records and path are identical whether
or not the cache write succeeds. -/
theorem c4_cache_faults_absorbed (cmp : String → String → Int) :
    readCache .missing = none ∧
    readCache .unreadable = none ∧
    readCache .badJson = none ∧
    (∀ j : Json, validShape j = false → readCache (.json j) = none) ∧
    (∀ (env : Env) (fr : Bool),
      (loadCatalog cmp { env with writeOk := false } fr).map
          (fun o => (o.resources, o.dbPath))
        = (loadCatalog cmp { env with writeOk := true } fr).map
          (fun o => (o.resources, o.dbPath))) := by
  refine ⟨rfl, rfl, rfl, ?_, ?_⟩
  · intro j hj
    cases hrc : readCache (.json j) with
    | none => rfl
    | some c => rw [readCache_validShape hrc] at hj; cases hj
  · intro env fr
    cases fr with
    | true =>
      cases hdb : readCatalogDatabase cmp env.db <;> simp [loadCatalog, hdb, writeCache]
    | false =>
      cases hrc : readCache env.cacheFile with
      | none =>
        cases hdb : readCatalogDatabase cmp env.db <;>
          simp [loadCatalog, hrc, hdb, writeCache]
      | some c =>
        by_cases hbeq : (c.dbPath == env.catalog.path && c.mtimeMs == env.catalog.mtimeMs) = true
        · simp [loadCatalog, hrc, hbeq]
        · cases hdb : readCatalogDatabase cmp env.db <;>
            simp [loadCatalog, hrc, hbeq, hdb, writeCache]

/-- C4, witness: a wrong-shaped cache value reads as absent, and a load
with a failing cache write returns the same records and path as one whose
write succeeds. -/
theorem c4_cache_faults_absorbed_witness :
    readCache (.json (Json.str "nope")) = none ∧
    (loadCatalog demoCmp { demoEnvHit with writeOk := false } true).map
        (fun o => (o.resources, o.dbPath))
      = (loadCatalog demoCmp { demoEnvHit with writeOk := true } true).map
        (fun o => (o.resources, o.dbPath)) := by
  have h := c4_cache_faults_absorbed demoCmp
  exact ⟨h.2.2.2.1 (Json.str "nope") rfl, h.2.2.2.2 demoEnvHit true⟩

/-- C10: cache-read validation is shallow — any parsed object with a
string `dbPath`, numeric `mtimeMs` and array `resources` is accepted with
its elements uninspected, and an unforced load at the matching location
returns exactly those raw elements, never checked against the record
invariants. -/
theorem c10_shallow_cache_validation (cmp : String → String → Int)
    (d : String) (m : Int) (rs : List Json) (env : Env)
    (hc : env.cacheFile
      = .json (.obj [("dbPath", .str d), ("mtimeMs", .num m), ("resources", .arr rs)]))
    (hd : env.catalog.path = d) (hm : env.catalog.mtimeMs = m) :
    readCache env.cacheFile = some { dbPath := d, mtimeMs := m, resources := rs } ∧
    loadCatalog cmp env false
      = some { resources := rs, dbPath := env.catalog.path,
               cacheAfter := env.cacheFile } := by
  have hrc : readCache env.cacheFile
      = some { dbPath := d, mtimeMs := m, resources := rs } := by
    rw [hc]; rfl
  refine ⟨hrc, ?_⟩
  have hbeq : ((d : String) == env.catalog.path && (m : Int) == env.catalog.mtimeMs) = true := by
    rw [Bool.and_eq_true]
    exact ⟨beq_iff_eq.mpr hd.symm, beq_iff_eq.mpr hm.symm⟩
  simp [loadCatalog, hrc, hbeq]

/-- A cached payload whose `resources` array holds a bare number — not a
record at all. -/
def demoRawCache : Json :=
  .obj [("dbPath", .str "/cat.db"), ("mtimeMs", .num 7), ("resources", .arr [Json.num 7])]

/-- Environment whose fresh-looking cache holds the garbage payload. -/
def demoEnvRaw : Env :=
  { catalog := { path := "/cat.db", mtimeMs := 7 },
    cacheFile := .json demoRawCache, db := c2Db, writeOk := true }

/-- C10, witness: the garbage element passes through a cache hit intact. -/
theorem c10_shallow_cache_validation_witness :
    readCache demoEnvRaw.cacheFile
      = some { dbPath := "/cat.db", mtimeMs := 7, resources := [Json.num 7] } ∧
    loadCatalog demoCmp demoEnvRaw false
      = some { resources := [Json.num 7], dbPath := demoEnvRaw.catalog.path,
               cacheAfter := demoEnvRaw.cacheFile } :=
  c10_shallow_cache_validation demoCmp "/cat.db" 7 [Json.num 7] demoEnvRaw rfl rfl rfl

/-! ### C6: filter edge cases -/

/-- C6: with an empty record set every query yields the empty sequence; an
empty or whitespace-only query yields the first 50 records in their loaded
(title-sorted) order without consulting the fuzzy index; and a non-empty
query whose index search matches nothing yields the empty sequence rather
than an error. -/
theorem c6_filter_edge_cases (resources : List ResourceRow)
    (search : String → List FuseEntry) (q : String) :
    (resources = [] → filteredResources resources search q = []) ∧
    (trimStr q = "" → filteredResources resources search q = resources.take 50) ∧
    (trimStr q ≠ "" → search (trimStr q) = [] →
      filteredResources resources search q = []) := by
  refine ⟨?_, ?_, ?_⟩
  · intro h; subst h; rfl
  · intro hq
    by_cases h0 : (resources.length == 0) = true
    · have hr : resources = [] := by simpa using h0
      subst hr; rfl
    · simp [filteredResources, h0, hq]
  · intro hq hs
    by_cases h0 : (resources.length == 0) = true
    · have hr : resources = [] := by simpa using h0
      subst hr; rfl
    · simp [filteredResources, fuseOf, h0, hq, hs]

/-- C6, witness: the three edge cases at concrete inputs. -/
theorem c6_filter_edge_cases_witness :
    filteredResources [] (fun _ => []) "x" = [] ∧
    filteredResources demoRows (fun _ => []) "   " = demoRows.take 50 ∧
    filteredResources demoRows (fun _ => []) "zz" = [] := by
  refine ⟨(c6_filter_edge_cases [] (fun _ => []) "x").1 rfl, ?_, ?_⟩
  · exact (c6_filter_edge_cases demoRows (fun _ => []) "   ").2.1 (by decide)
  · exact (c6_filter_edge_cases demoRows (fun _ => []) "zz").2.2 (by decide) rfl

/-! ### C7 / C8 / C9: catalog resolution -/

/-- C7: when a configured override path's expanded form does not exist,
resolution fails with the NotFound error naming that expanded path — and
this holds for every filesystem state, so the auto-discovery scan of the
base directory is never consulted. -/
theorem c7_override_not_found (pref : String) (fs : Fs)
    (hpref : trimStr pref ≠ "")
    (hmiss : fs.pathExists (expandTilde fs.home (trimStr pref)) = false) :
    resolveCatalog (some pref) fs
      = .error ("catalog.db not found at " ++ expandTilde fs.home (trimStr pref)) := by
  have h1 : (trimStr pref != "") = true := by
    simpa [bne_iff_ne] using hpref
  simp only [resolveCatalog, Option.getD_some, h1, if_true, hmiss, Bool.false_eq_true,
    if_false]

/-- Filesystem with nothing on it. -/
def demoFsMissing : Fs :=
  { home := "/Users/u", pathExists := fun _ => false, mtimeOf := fun _ => 0,
    baseEntries := [] }

/-- C7, witness: a tilde-prefixed override that does not exist. -/
theorem c7_override_not_found_witness :
    resolveCatalog (some "~/Library/catalog.db") demoFsMissing
      = .error ("catalog.db not found at "
          ++ expandTilde demoFsMissing.home (trimStr "~/Library/catalog.db")) :=
  c7_override_not_found "~/Library/catalog.db" demoFsMissing (by decide) rfl

theorem jsSort_cand_head (l : List CatalogInfo) : l ≠ [] →
    ∃ m rest, jsSortBy candCmp l = m :: rest ∧ m ∈ l ∧
      (∀ x ∈ l, x.mtimeMs ≤ m.mtimeMs) ∧
      l.find? (fun x => decide (m.mtimeMs ≤ x.mtimeMs)) = some m := by
  induction l with
  | nil => intro h; exact absurd rfl h
  | cons a l' ih =>
    intro _
    cases hl' : l' with
    | nil =>
      refine ⟨a, [], rfl, List.mem_singleton_self a, ?_, ?_⟩
      · intro x hx
        rw [List.mem_singleton.mp hx]
      · rw [List.find?_cons_of_pos _ (by simp)]
    | cons b l'' =>
      rw [← hl']
      obtain ⟨m', rest', hsort, hmem, hmax, hfind⟩ := ih (by rw [hl']; simp)
      by_cases hle : m'.mtimeMs ≤ a.mtimeMs
      · have hr : candCmp a m' ≤ 0 := by simp only [candCmp]; omega
        refine ⟨a, m' :: rest', ?_, List.mem_cons_self a l', ?_, ?_⟩
        · simp only [jsSortBy, List.insertionSort] at hsort ⊢
          rw [hsort, List.orderedInsert, if_pos hr]
        · intro x hx
          rcases List.mem_cons.mp hx with hx1 | hx2
          · rw [hx1]
          · exact le_trans (hmax x hx2) hle
        · rw [List.find?_cons_of_pos _ (by simp)]
      · have hr : ¬ candCmp a m' ≤ 0 := by simp only [candCmp]; omega
        refine ⟨m', List.orderedInsert (fun x y => candCmp x y ≤ 0) a rest',
          ?_, List.mem_cons_of_mem a hmem, ?_, ?_⟩
        · simp only [jsSortBy, List.insertionSort] at hsort ⊢
          rw [hsort, List.orderedInsert, if_neg hr]
        · intro x hx
          rcases List.mem_cons.mp hx with hx1 | hx2
          · rw [hx1]; omega
          · exact hmax x hx2
        · rw [List.find?_cons_of_neg _ (by simpa using hle)]
          exact hfind

/-- C8: with no override and the base directory present, a non-empty
candidate collection makes the locator succeed with a candidate of
greatest mtime; among candidates tied at that greatest mtime, the first in
directory-enumeration order is the one returned. -/
theorem c8_newest_candidate_wins (fs : Fs)
    (hbase : fs.pathExists (baseDirOf fs) = true)
    (hne : candidatesOf fs ≠ []) :
    ∃ m, resolveCatalog none fs = .ok m ∧ m ∈ candidatesOf fs ∧
      (∀ x ∈ candidatesOf fs, x.mtimeMs ≤ m.mtimeMs) ∧
      (candidatesOf fs).find? (fun x => decide (m.mtimeMs ≤ x.mtimeMs)) = some m := by
  obtain ⟨m, rest, hsort, hmem, hmax, hfind⟩ := jsSort_cand_head (candidatesOf fs) hne
  refine ⟨m, ?_, hmem, hmax, hfind⟩
  have hemp : (candidatesOf fs).isEmpty = false := by
    cases h : candidatesOf fs with
    | nil => exact absurd h hne
    | cons x xs => rfl
  have hovr : (trimStr "" != "") = false := rfl
  simp only [resolveCatalog, Option.getD_none, hovr, hbase, Bool.not_true,
    Bool.false_eq_true, if_false, hemp, hsort]

/-- Filesystem with two installed account folders, the second more recent. -/
def demoFsTwo : Fs :=
  { home := "/h",
    pathExists := fun _ => true,
    mtimeOf := fun p =>
      if p == "/h/Library/Application Support/Logos4/Data/A/LibraryCatalog/catalog.db"
      then 3 else 7,
    baseEntries := [("A", true), ("B", true)] }

/-- C8, witness: two candidates with mtimes 3 < 7. -/
theorem c8_newest_candidate_wins_witness :
    ∃ m, resolveCatalog none demoFsTwo = .ok m ∧ m ∈ candidatesOf demoFsTwo ∧
      (∀ x ∈ candidatesOf demoFsTwo, x.mtimeMs ≤ m.mtimeMs) ∧
      (candidatesOf demoFsTwo).find? (fun x => decide (m.mtimeMs ≤ x.mtimeMs)) = some m :=
  c8_newest_candidate_wins demoFsTwo rfl (by decide)

/-- Filesystem whose base directory exists but holds no catalog. -/
def demoFsNoCandidates : Fs :=
  { home := "/h",
    pathExists := fun p => p == "/h/Library/Application Support/Logos4/Data",
    mtimeOf := fun _ => 0, baseEntries := [("A", true)] }

/-- C9, counterexample: the failure for a missing base installation
directory and the failure for zero discovered candidates carry the
identical message — the former is not more specific. -/
theorem c9_claim_counterexample :
    resolveCatalog none demoFsMissing = .error notFoundMessage ∧
    resolveCatalog none demoFsNoCandidates = .error notFoundMessage ∧
    resolveCatalog none demoFsMissing = resolveCatalog none demoFsNoCandidates :=
  ⟨rfl, rfl, rfl⟩

/-- C9 (amended): both auto-discovery failures — base directory missing,
and base directory present with zero catalog candidates — are the same
error kind carrying the identical remediation message; the base-missing
case does not produce a more specific message. -/
theorem c9_same_notfound_message (fs fs' : Fs)
    (h1 : fs.pathExists (baseDirOf fs) = false)
    (h2 : fs'.pathExists (baseDirOf fs') = true)
    (h3 : candidatesOf fs' = []) :
    resolveCatalog none fs = .error notFoundMessage ∧
    resolveCatalog none fs' = .error notFoundMessage := by
  have hovr : (trimStr "" != "") = false := rfl
  constructor
  · simp only [resolveCatalog, Option.getD_none, hovr, Bool.false_eq_true, if_false, h1,
      Bool.not_false, if_true]
  · have hemp : (candidatesOf fs').isEmpty = true := by rw [h3]; rfl
    simp only [resolveCatalog, Option.getD_none, hovr, Bool.false_eq_true, if_false, h2,
      Bool.not_true, hemp, if_true]

/-- C9 (amended), witness at the two concrete filesystems. -/
theorem c9_same_notfound_message_witness :
    resolveCatalog none demoFsMissing = .error notFoundMessage ∧
    resolveCatalog none demoFsNoCandidates = .error notFoundMessage :=
  c9_same_notfound_message demoFsMissing demoFsNoCandidates rfl rfl rfl
